import Mathlib

/-!
# Verification of the tts-daemon cache and fetch-coordination core

Shallow embedding of the cache / fetch-coordination layer of `tts-daemon`
(`internal/tts/cache.go`, `internal/tts/service.go`,
`internal/daemon/server.go`) and proofs about the properties its
specification states.

Bytes are modelled as `List Nat` (each element a byte value `< 256`);
Go `int64` sizes, counts and Unix timestamps are modelled as `Nat`
(every quantity involved is nonnegative and far below 2^63, so no
overflow behaviour is reachable in the scenarios considered).
-/

namespace TTSDaemon

/-- A byte string: list of byte values. -/
abbrev Bytes := List Nat

/-! ## SHA-256 (`crypto/sha256`), over byte lists

`GenerateCacheKey` in `cache.go` hashes `language ++ ":" ++ normalized`
with SHA-256 and hex-encodes the digest.  The hash itself is Go's
standard library; it is embedded here concretely (FIPS 180-4) so that
*inequality* of cache keys for distinct inputs is decidable by
computation. -/

/-- Truncate to a 32-bit word. -/
def w32 (n : Nat) : Nat := n % 4294967296

/-- Right-rotation of a 32-bit word by `k` bits. -/
def rotr32 (k n : Nat) : Nat := w32 ((n >>> k) ||| (n <<< (32 - k)))

/-- Bitwise complement of a 32-bit word. -/
def not32 (n : Nat) : Nat := 4294967295 ^^^ n

/-- SHA-256 round constants (FIPS 180-4 §4.2.2), written in decimal. -/
def sha256K : List Nat :=
  [1116352408, 1899447441, 3049323471, 3921009573,
   961987163, 1508970993, 2453635748, 2870763221,
   3624381080, 310598401, 607225278, 1426881987,
   1925078388, 2162078206, 2614888103, 3248222580,
   3835390401, 4022224774, 264347078, 604807628,
   770255983, 1249150122, 1555081692, 1996064986,
   2554220882, 2821834349, 2952996808, 3210313671,
   3336571891, 3584528711, 113926993, 338241895,
   666307205, 773529912, 1294757372, 1396182291,
   1695183700, 1986661051, 2177026350, 2456956037,
   2730485921, 2820302411, 3259730800, 3345764771,
   3516065817, 3600352804, 4094571909, 275423344,
   430227734, 506948616, 659060556, 883997877,
   958139571, 1322822218, 1537002063, 1747873779,
   1955562222, 2024104815, 2227730452, 2361852424,
   2428436474, 2756734187, 3204031479, 3329325298]

/-- SHA-256 initial hash value (FIPS 180-4 §5.3.3), written in decimal. -/
def sha256H0 : List Nat :=
  [1779033703, 3144134277, 1013904242, 2773480762,
   1359893119, 2600822924, 528734635, 1541459225]

/-- Message padding: append `0x80`, zero bytes to 56 mod 64, then the
bit length as 8 big-endian bytes. -/
def sha256Pad (msg : Bytes) : Bytes :=
  let l := msg.length
  let zeros := (64 + 56 - ((l + 1) % 64)) % 64
  let bitLen := 8 * l
  msg ++ [0x80] ++ List.replicate zeros 0 ++
    [w32 (bitLen >>> 56) % 256, (bitLen >>> 48) % 256, (bitLen >>> 40) % 256,
     (bitLen >>> 32) % 256, (bitLen >>> 24) % 256, (bitLen >>> 16) % 256,
     (bitLen >>> 8) % 256, bitLen % 256]

/-- Collect 4 consecutive bytes into a big-endian 32-bit word. -/
def bytesToWords : Bytes → List Nat
  | b0 :: b1 :: b2 :: b3 :: rest =>
      (b0 <<< 24 ||| b1 <<< 16 ||| b2 <<< 8 ||| b3) :: bytesToWords rest
  | _ => []

/-- Split a list into chunks of 16 elements. -/
def chunk16 : List Nat → List (List Nat)
  | w0 :: w1 :: w2 :: w3 :: w4 :: w5 :: w6 :: w7 ::
    w8 :: w9 :: w10 :: w11 :: w12 :: w13 :: w14 :: w15 :: rest =>
      [w0, w1, w2, w3, w4, w5, w6, w7,
       w8, w9, w10, w11, w12, w13, w14, w15] :: chunk16 rest
  | _ => []

/-- σ₀ of the message schedule. -/
def ssig0 (x : Nat) : Nat := rotr32 7 x ^^^ rotr32 18 x ^^^ (x >>> 3)

/-- σ₁ of the message schedule. -/
def ssig1 (x : Nat) : Nat := rotr32 17 x ^^^ rotr32 19 x ^^^ (x >>> 10)

/-- Σ₀ of the compression function. -/
def bsig0 (x : Nat) : Nat := rotr32 2 x ^^^ rotr32 13 x ^^^ rotr32 22 x

/-- Σ₁ of the compression function. -/
def bsig1 (x : Nat) : Nat := rotr32 6 x ^^^ rotr32 11 x ^^^ rotr32 25 x

/-- Extend the 16 block words to the 64-entry message schedule.  The
accumulator is kept in reverse order (`acc.head` is the newest word). -/
def sha256ScheduleAux : Nat → List Nat → List Nat
  | 0, acc => acc.reverse
  | t + 1, acc =>
      let wt := w32 (ssig1 (acc.getD 1 0) + acc.getD 6 0 +
                     ssig0 (acc.getD 14 0) + acc.getD 15 0)
      sha256ScheduleAux t (wt :: acc)

/-- The 64-word message schedule of one block. -/
def sha256Schedule (block : List Nat) : List Nat :=
  sha256ScheduleAux 48 block.reverse

/-- One round of the SHA-256 compression function: state is
`[a,b,c,d,e,f,g,h]`, input is the pair (Kₜ, Wₜ). -/
def sha256Round (st : List Nat) (kw : Nat × Nat) : List Nat :=
  match st with
  | [a, b, c, d, e, f, g, h] =>
      let t1 := w32 (h + bsig1 e + ((e &&& f) ^^^ (not32 e &&& g)) +
                     kw.1 + kw.2)
      let t2 := w32 (bsig0 a + ((a &&& b) ^^^ (a &&& c) ^^^ (b &&& c)))
      [w32 (t1 + t2), a, b, c, w32 (d + t1), e, f, g]
  | other => other

/-- Process one 16-word block against the running hash value. -/
def sha256Block (hv : List Nat) (block : List Nat) : List Nat :=
  let st := (sha256K.zip (sha256Schedule block)).foldl sha256Round hv
  (hv.zip st).map fun p => w32 (p.1 + p.2)

/-- The SHA-256 digest of a byte string, as the 8 hash words. -/
def sha256Words (msg : Bytes) : List Nat :=
  (chunk16 (bytesToWords (sha256Pad msg))).foldl sha256Block sha256H0

/-- A 32-bit word as 4 big-endian bytes. -/
def wordToBytesBE (n : Nat) : Bytes :=
  [(n >>> 24) % 256, (n >>> 16) % 256, (n >>> 8) % 256, n % 256]

/-- The SHA-256 digest of a byte string, as 32 bytes
(`sha256.Sum256`). -/
def sha256Sum (msg : Bytes) : Bytes :=
  (sha256Words msg).flatMap wordToBytesBE

/-- Lower-case hex digit for a value `< 16`. -/
def hexDigit (n : Nat) : Char :=
  if n < 10 then Char.ofNat (48 + n) else Char.ofNat (87 + n)

/-- Lower-case hex encoding of a byte string (`hex.EncodeToString`). -/
def hexEncode (bs : Bytes) : String :=
  ⟨bs.flatMap fun b => [hexDigit (b / 16), hexDigit (b % 16)]⟩

/-- UTF-8 encoding of one character (Go strings are UTF-8 byte
sequences; `[]byte(s)` yields these bytes). -/
def utf8EncodeChar (c : Char) : Bytes :=
  let n := c.toNat
  if n < 0x80 then [n]
  else if n < 0x800 then
    [0xc0 ||| (n >>> 6), 0x80 ||| (n &&& 0x3f)]
  else if n < 0x10000 then
    [0xe0 ||| (n >>> 12), 0x80 ||| ((n >>> 6) &&& 0x3f), 0x80 ||| (n &&& 0x3f)]
  else
    [0xf0 ||| (n >>> 18), 0x80 ||| ((n >>> 12) &&& 0x3f),
     0x80 ||| ((n >>> 6) &&& 0x3f), 0x80 ||| (n &&& 0x3f)]

/-- The UTF-8 bytes of a string. -/
def utf8Bytes (s : String) : Bytes := s.data.flatMap utf8EncodeChar

/-- FIPS 180-4 test vector: digest of `"abc"`. -/
example : hexEncode (sha256Sum (utf8Bytes "abc")) =
    "ba7816bf8f01cfea414140de5dae2223b00361a396177a9cb410ff61f20015ad" := by
  decide

/-- FIPS 180-4 test vector: digest of the empty string. -/
example : hexEncode (sha256Sum []) =
    "e3b0c44298fc1c149afbf4c8996fb92427ae41e4649b934ca495991b7852b855" := by
  decide

/-! ## Go `unicode` / `strings` helpers used by `NormalizeText`

`NormalizeText` calls `strings.ToLower`, `strings.TrimSpace`,
`strings.Fields`, `strings.Join` and `strings.TrimRightFunc` with
`unicode.IsPunct` / `unicode.IsSpace`.  The predicates are embedded
faithfully over the Latin-1 range (Go's fast-path tables) plus the
Unicode `White_Space` code points; general-category punctuation above
Latin-1 is not modelled (every input appearing in the claims is
ASCII). -/

/-- `unicode.IsSpace`: Latin-1 white space plus the `White_Space`
property code points above Latin-1. -/
def goIsSpace (c : Char) : Bool :=
  let n := c.toNat
  n == 9 || n == 10 || n == 11 || n == 12 || n == 13 || n == 32 ||
  n == 0x85 || n == 0xa0 || n == 0x1680 ||
  (0x2000 ≤ n && n ≤ 0x200a) || n == 0x2028 || n == 0x2029 ||
  n == 0x202f || n == 0x205f || n == 0x3000

/-- `unicode.IsPunct` on the Latin-1 range (Go's `properties` table
entries carrying `pP`); code points above Latin-1 are not modelled
(claim inputs are ASCII). -/
def goIsPunct (c : Char) : Bool :=
  let n := c.toNat
  (0x21 ≤ n && n ≤ 0x23) || (0x25 ≤ n && n ≤ 0x2a) ||
  (0x2c ≤ n && n ≤ 0x2f) || n == 0x3a || n == 0x3b ||
  n == 0x3f || n == 0x40 || (0x5b ≤ n && n ≤ 0x5d) || n == 0x5f ||
  n == 0x7b || n == 0x7d ||
  n == 0xa1 || n == 0xa7 || n == 0xab || n == 0xb6 || n == 0xb7 ||
  n == 0xbb || n == 0xbf

/-- `unicode.ToLower` on the Latin-1 range (`A`–`Z` and `À`–`Þ` except
`×` map down by 32); higher code points are not modelled (claim inputs
are ASCII). -/
def goToLower (c : Char) : Char :=
  let n := c.toNat
  if 0x41 ≤ n && n ≤ 0x5a then Char.ofNat (n + 32)
  else if (0xc0 ≤ n && n ≤ 0xd6) || (0xd8 ≤ n && n ≤ 0xde) then
    Char.ofNat (n + 32)
  else c

/-- `strings.TrimSpace`: drop leading and trailing white space. -/
def trimSpace (cs : List Char) : List Char :=
  ((cs.dropWhile goIsSpace).reverse.dropWhile goIsSpace).reverse

/-- `strings.Fields`: split around runs of white space, no empty
fields.  The accumulator holds the current field reversed. -/
def fieldsAux : List Char → List Char → List (List Char)
  | [], cur => if cur.isEmpty then [] else [cur.reverse]
  | c :: rest, cur =>
      if goIsSpace c then
        if cur.isEmpty then fieldsAux rest []
        else cur.reverse :: fieldsAux rest []
      else fieldsAux rest (c :: cur)

/-- `strings.Join(fields, " ")`. -/
def joinSpace : List (List Char) → List Char
  | [] => []
  | [f] => f
  | f :: rest => f ++ ' ' :: joinSpace rest

/-! ## KeyDeriver (`cache.go`: `NormalizeText`, `GenerateCacheKey`) -/

/-- `NormalizeText` (`cache.go`): lowercase, trim surrounding white
space, collapse internal white-space runs to single spaces, then strip
trailing punctuation and white space. -/
def NormalizeText (text : String) : String :=
  let lowered := text.data.map goToLower
  let trimmed := trimSpace lowered
  let collapsed := joinSpace (fieldsAux trimmed [])
  let stripped :=
    (collapsed.reverse.dropWhile fun r => goIsPunct r || goIsSpace r).reverse
  ⟨stripped⟩

/-- `GenerateCacheKey` (`cache.go`): hex-encoded SHA-256 of
`languageCode ++ ":" ++ NormalizeText text`. -/
def GenerateCacheKey (text languageCode : String) : String :=
  hexEncode (sha256Sum (utf8Bytes (languageCode ++ ":" ++ NormalizeText text)))

/-- Normalization keeps internal punctuation: the comma survives. -/
example : NormalizeText "Hello, World!" = "hello, world" := by decide

/-- Normalization collapses internal white-space runs. -/
example : NormalizeText "  Hello,   World!  " = "hello, world" := by decide

/-! ## Store model (`cache.go`: table `audio_cache`)

The SQLite table is modelled as a list of rows; `cache_key` is the
primary key, so every operation that writes a key first removes any
row carrying it.  Row order never matters to the embedded operations
(the eviction pass aggregates by `last_accessed`, not by position). -/

/-- One row of `audio_cache` (struct `CachedAudio` plus the
`audio_size` column the queries read). -/
structure CachedAudio where
  cacheKey : String
  text : String
  languageCode : String
  audioData : Bytes
  audioSize : Nat
  compression : Option String
  createdAt : Nat
  lastAccessed : Nat
deriving DecidableEq

/-- The cache table. -/
abbrev Store := List CachedAudio

/-- Point lookup by primary key. -/
def Store.lookup (s : Store) (key : String) : Option CachedAudio :=
  s.find? fun e => e.cacheKey == key

/-- `SUM(audio_size)` over the table. -/
def Store.totalSize (s : Store) : Nat :=
  (s.map CachedAudio.audioSize).sum

/-- `INSERT OR REPLACE`: drop any row with the new row's key, add the
new row. -/
def Store.insertOrReplace (s : Store) (e : CachedAudio) : Store :=
  (s.filter fun x => x.cacheKey != e.cacheKey) ++ [e]

/-! ## Compression codec (`klauspost/compress/zstd`)

The zstd encoder/decoder pair is an external library; it is modelled
as an abstract codec.  Theorems that need `decode ∘ encode = id` take
it as an explicit round-trip hypothesis (spec §8 "Round-trip"). -/

/-- An encoder/decoder pair as handed to `NewCache`'s fields. -/
structure Codec where
  encode : Bytes → Bytes
  decode : Bytes → Except String Bytes

/-- The codec round-trips: decoding an encoded payload restores it
bit-exact. -/
def Codec.RoundTrip (z : Codec) : Prop :=
  ∀ b, z.decode (z.encode b) = .ok b

/-- The identity codec: a concrete round-tripping instance used by
witnesses. -/
def idCodec : Codec := ⟨fun b => b, fun b => .ok b⟩

theorem idCodec_roundTrip : idCodec.RoundTrip := fun _ => rfl

/-! ## Cache (`cache.go`: struct `Cache` and its methods) -/

/-- The `Cache` struct: configuration plus the optional
encoder/decoder handles. -/
structure Cache where
  compressionEnabled : Bool
  maxSizeBytes : Nat
  encoder : Option (Bytes → Bytes)
  decoder : Option (Bytes → Except String Bytes)

/-- `NewCache`: initializes encoder and decoder exactly when
compression is enabled, and converts the MB budget to bytes (0 means
unlimited). -/
def NewCache (z : Codec) (compressionEnabled : Bool) (maxSizeMB : Nat) : Cache :=
  { compressionEnabled := compressionEnabled
    maxSizeBytes := if 0 < maxSizeMB then maxSizeMB * 1024 * 1024 else 0
    encoder := if compressionEnabled then some z.encode else none
    decoder := if compressionEnabled then some z.decode else none }

deriving instance DecidableEq for Except

/-- What a `Get` call produces: the foreground result handed to the
caller, plus the background tasks it spawns (`go updateLastAccessed`,
`go recompressEntry`).  The foreground result is a function of the
pre-state alone; the tasks run detached. -/
structure GetOutcome where
  result : Except String (Option CachedAudio)
  touchSpawned : Option (String × Nat)
  recompressSpawned : Option (String × Bytes)
deriving DecidableEq

/-- `Cache.Get`: look up by derived key; on a hit spawn the
last-accessed touch, decompress a `zstd` row (error if no decoder or
the payload is invalid), and spawn recompression when compression is
enabled but the row is stored uncompressed.  `now` stands for
`time.Now().Unix()`. -/
def Cache.Get (c : Cache) (s : Store) (text languageCode : String)
    (now : Nat) : GetOutcome :=
  match s.lookup (GenerateCacheKey text languageCode) with
  | none => ⟨.ok none, none, none⟩
  | some audio =>
      if audio.compression = some "zstd" then
        match c.decoder with
        | none =>
            ⟨.error "zstd decoder not initialized",
             some (GenerateCacheKey text languageCode, now), none⟩
        | some dec =>
            match dec audio.audioData with
            | .error e =>
                ⟨.error ("failed to decompress audio data: " ++ e),
                 some (GenerateCacheKey text languageCode, now), none⟩
            | .ok decompressed =>
                ⟨.ok (some { audio with audioData := decompressed }),
                 some (GenerateCacheKey text languageCode, now), none⟩
      else
        ⟨.ok (some audio), some (GenerateCacheKey text languageCode, now),
         if c.compressionEnabled && audio.compression.isNone then
           some (GenerateCacheKey text languageCode, audio.audioData)
         else none⟩

/-- `updateLastAccessed`: best-effort touch of one row's
`last_accessed`. -/
def Store.updateLastAccessed (s : Store) (cacheKey : String)
    (timestamp : Nat) : Store :=
  s.map fun e =>
    if e.cacheKey == cacheKey then { e with lastAccessed := timestamp } else e

/-- `Cache.Put`: compress if enabled (error if the encoder is
missing), `INSERT OR REPLACE` the row with `audio_size` set to the
stored payload's length and both timestamps set to `now`.  Returns the
derived key, the new table, and whether an eviction pass is spawned
(`maxSizeBytes > 0`). -/
def Cache.Put (c : Cache) (s : Store) (text languageCode : String)
    (audioData : Bytes) (now : Nat) :
    Except String (String × Store × Bool) :=
  let cacheKey := GenerateCacheKey text languageCode
  let choice : Except String (Bytes × Option String) :=
    if c.compressionEnabled then
      match c.encoder with
      | none => .error "zstd encoder not initialized"
      | some enc => .ok (enc audioData, some "zstd")
    else .ok (audioData, none)
  match choice with
  | .error e => .error e
  | .ok (dataToStore, compression) =>
      .ok (cacheKey,
        s.insertOrReplace
          { cacheKey := cacheKey, text := text, languageCode := languageCode
            audioData := dataToStore, audioSize := dataToStore.length
            compression := compression, createdAt := now, lastAccessed := now },
        decide (0 < c.maxSizeBytes))

/-- `recompressEntry`: the background upgrade task.  No-op without an
encoder; otherwise a conditional `UPDATE … WHERE cache_key = ? AND
compression IS NULL` writing the compressed payload, its length, and
the `zstd` marker. -/
def Cache.recompressEntry (c : Cache) (s : Store) (cacheKey : String)
    (uncompressedData : Bytes) : Store :=
  match c.encoder with
  | none => s
  | some enc =>
      let compressed := enc uncompressedData
      s.map fun e =>
        if e.cacheKey == cacheKey && e.compression.isNone then
          { e with audioData := compressed, audioSize := compressed.length
                   compression := some "zstd" }
        else e

/-- `Cache.Delete`: remove by derived key; reports whether a row
existed (`RowsAffected > 0`). -/
def Cache.Delete (s : Store) (text languageCode : String) :
    String × Bool × Store :=
  let cacheKey := GenerateCacheKey text languageCode
  (cacheKey, s.any fun e => e.cacheKey == cacheKey,
   s.filter fun e => e.cacheKey != cacheKey)

/-- The running `SUM(audio_size) OVER (ORDER BY last_accessed ASC)` of
a row: with the default `RANGE` frame this is the total size of all
rows whose `last_accessed` is at most the row's own (peers
included). -/
def cumulativeSize (s : Store) (e : CachedAudio) : Nat :=
  ((s.filter fun x => decide (x.lastAccessed ≤ e.lastAccessed)).map
    CachedAudio.audioSize).sum

/-- `evictIfNeeded`: no-op while total size is within the budget;
otherwise delete every row whose running size (ascending
`last_accessed`) is at most `totalSize - target`.  Go computes the
target as `int64(float64(maxSizeBytes) * 0.9)`; for every budget these
claims evaluate (1,000,000 bytes) that truncation equals
`maxSizeBytes * 9 / 10`, which is how it is modelled. -/
def Cache.evictIfNeeded (c : Cache) (s : Store) : Store :=
  let totalSize := s.totalSize
  if totalSize ≤ c.maxSizeBytes then s
  else
    let targetSize := c.maxSizeBytes * 9 / 10
    let sizeToEvict := totalSize - targetSize
    s.filter fun e => !(decide (cumulativeSize s e ≤ sizeToEvict))

/-- `GetStats`.  The two `float64` fields are modelled as rationals
(the claims test their presence, not their rounding); the budget
fields are attached only when a non-zero size limit is configured. -/
structure CacheStats where
  totalClips : Nat
  totalSize : Nat
  sizeMB : ℚ
  maxSizeMB : Option ℚ
  usagePercent : Option ℚ
deriving DecidableEq

/-- `Cache.GetStats`: `COUNT(*)` and `SUM(audio_size)` over the table,
plus budget fields if a limit is set. -/
def Cache.GetStats (c : Cache) (s : Store) : CacheStats :=
  let count := s.length
  let totalSize := s.totalSize
  { totalClips := count
    totalSize := totalSize
    sizeMB := (totalSize : ℚ) / (1024 * 1024)
    maxSizeMB :=
      if 0 < c.maxSizeBytes then some ((c.maxSizeBytes : ℚ) / (1024 * 1024))
      else none
    usagePercent :=
      if 0 < c.maxSizeBytes then
        some ((totalSize : ℚ) / (c.maxSizeBytes : ℚ) * 100)
      else none }

/-! ## Operation sequences over the cache (for the stats claim) -/

/-- A foreground write operation against the cache table. -/
inductive CacheOp where
  | putOp (text languageCode : String) (audioData : Bytes) (now : Nat)
  | deleteOp (text languageCode : String)

/-- Apply one operation to the table (a failed `Put` writes
nothing). -/
def applyOp (c : Cache) (s : Store) : CacheOp → Store
  | .putOp t l d now =>
      match c.Put s t l d now with
      | .ok (_, s', _) => s'
      | .error _ => s
  | .deleteOp t l => (Cache.Delete s t l).2.2

/-- Apply a sequence of operations starting from the empty table. -/
def applyOps (c : Cache) (ops : List CacheOp) : Store :=
  ops.foldl (applyOp c) []

/-! ## The eviction scenario of spec §8

Budget 1,000,000 bytes; 20 sequentially inserted entries of 100,000
stored bytes each, access-touched in insertion order (entry `i` is
written and last touched at time `i`); the eviction pass spawned by
each put completes before the next put.  Rows are written with the
shape `Cache.Put` produces — distinct keys, `audio_size` equal to the
stored payload length (100,000), `last_accessed` equal to the
insertion time; the payload bytes themselves are elided because
neither `evictIfNeeded` nor `GetStats` reads `audio_data`. -/

/-- The scenario's cache: compression off, 1,000,000-byte budget. -/
def scenarioCache : Cache :=
  { compressionEnabled := false, maxSizeBytes := 1000000
    encoder := none, decoder := none }

/-- The `i`-th inserted row of the scenario. -/
def scenarioRow (i : Nat) : CachedAudio :=
  { cacheKey := "entry-" ++ toString i, text := "entry " ++ toString i
    languageCode := "en-US", audioData := [], audioSize := 100000
    compression := none, createdAt := i, lastAccessed := i }

/-- One scenario step: insert row `i`, then run the eviction pass its
put spawns. -/
def scenarioStep (s : Store) (i : Nat) : Store :=
  scenarioCache.evictIfNeeded (s.insertOrReplace (scenarioRow i))

/-- The table after the first `n` scenario inserts (each followed by
its eviction pass). -/
def scenarioAfter (n : Nat) : Store :=
  (List.range' 1 n).foldl scenarioStep []

/-! ## Single-flight model (`service.go`: `Service.GetAudio`)

An interleaving semantics for `n` concurrent `GetAudio` calls for one
identical (text, language) against an initially empty cache, with a
deterministic synthesizer that returns `B` and never fails, and a
cache whose writes succeed.  Each thread's control point tracks where
it is in `GetAudio`; a scheduler step picks a thread and runs its next
atomic action.  Flights are numbered in creation order; `flightData`
records the fields written to a flight before its `done` channel is
closed, and `resolved` lists flights whose channel is closed. -/

/-- A thread's control point inside `GetAudio`. -/
inductive SFPC where
  /-- about to run the cache lookup -/
  | cacheCheck
  /-- missed the cache; about to lock the in-flight map -/
  | flightCheck
  /-- registered flight `fid`; about to call the synthesizer -/
  | synth (fid : Nat)
  /-- holds synthesized bytes; about to write the cache and the
  flight's fields -/
  | store (fid : Nat)
  /-- about to delete flight `fid` from the map and close its
  channel -/
  | close (fid : Nat)
  /-- blocked on flight `fid`'s channel -/
  | waiting (fid : Nat)
  /-- returned `(audioData, cached)` -/
  | done (audioData : Bytes) (cached : Bool)
deriving DecidableEq

/-- The shared state of the single-flight model. -/
structure SFState (n : Nat) where
  /-- the cache entry for the one key (`none` = miss) -/
  cache : Option Bytes
  /-- the in-flight map's slot for the one key -/
  inFlightId : Option Nat
  /-- next flight number -/
  nextId : Nat
  /-- audio data recorded on each flight before its close -/
  flightData : List (Nat × Bytes)
  /-- flights whose `done` channel is closed -/
  resolved : List Nat
  /-- number of synthesizer invocations so far -/
  synthCount : Nat
  /-- each thread's control point -/
  threads : Fin n → SFPC

/-- The audio data recorded on flight `fid`. -/
def lookupFlight (fd : List (Nat × Bytes)) (fid : Nat) : Option Bytes :=
  (fd.find? fun p => p.1 == fid).map Prod.snd

/-- One atomic action of thread `i` (a no-op when the thread is
blocked or finished). -/
def sfStep (B : Bytes) {n : Nat} (s : SFState n) (i : Fin n) : SFState n :=
  match s.threads i with
  | .cacheCheck =>
      match s.cache with
      | some b => { s with threads := Function.update s.threads i (.done b true) }
      | none => { s with threads := Function.update s.threads i .flightCheck }
  | .flightCheck =>
      match s.inFlightId with
      | some fid =>
          { s with threads := Function.update s.threads i (.waiting fid) }
      | none =>
          { s with inFlightId := some s.nextId, nextId := s.nextId + 1
                   threads := Function.update s.threads i (.synth s.nextId) }
  | .synth fid =>
      { s with synthCount := s.synthCount + 1
               threads := Function.update s.threads i (.store fid) }
  | .store fid =>
      { s with cache := some B, flightData := (fid, B) :: s.flightData
               threads := Function.update s.threads i (.close fid) }
  | .close fid =>
      { s with inFlightId := none, resolved := fid :: s.resolved
               threads := (Function.update s.threads i
                 (.done ((lookupFlight s.flightData fid).getD []) false)) }
  | .waiting fid =>
      if fid ∈ s.resolved then
        { s with threads := (Function.update s.threads i
            (.done ((lookupFlight s.flightData fid).getD []) false)) }
      else s
  | .done _ _ => s

/-- Run a schedule (a list of thread choices). -/
def sfRun (B : Bytes) {n : Nat} (s : SFState n) (sched : List (Fin n)) :
    SFState n :=
  sched.foldl (sfStep B) s

/-- The initial state: empty cache, no flights, every thread at its
cache lookup. -/
def sfInit (n : Nat) : SFState n :=
  ⟨none, none, 0, [], [], 0, fun _ => .cacheCheck⟩

/-- Whether a control point is a completed call. -/
def SFPC.isDone : SFPC → Bool
  | .done _ _ => true
  | _ => false

/-- The audio data a completed call returned. -/
def SFPC.resultData : SFPC → Option Bytes
  | .done b _ => some b
  | _ => none

/-- Every thread has returned. -/
def sfAllDone {n : Nat} (s : SFState n) : Prop :=
  ∀ i, (s.threads i).isDone = true

instance {n : Nat} (s : SFState n) : Decidable (sfAllDone s) := by
  unfold sfAllDone; infer_instance

/-! ## gRPC server bulk path (`server.go`: `BulkFetchTTS`) -/

/-- One item of a bulk request. -/
structure TTSReq where
  text : String
  languageCode : String
  forceRefresh : Bool

/-- What one `GetAudio` call yields (`audioData, cacheKey, cached,
err`). -/
structure FetchResult where
  audioData : Bytes
  cacheKey : String
  cached : Bool
  err : Option String

/-- One `TTSResponse`. -/
structure TTSResp where
  cached : Bool
  audioData : Bytes
  cacheKey : String
  audioSize : Nat

/-- The server's per-item validation loop: first failure wins. -/
def validateReqs : List TTSReq → Nat → Option String
  | [], _ => none
  | r :: rest, i =>
      if r.text = "" then some ("request " ++ toString i ++ ": text is required")
      else if r.languageCode = "" then
        some ("request " ++ toString i ++ ": language_code is required")
      else validateReqs rest (i + 1)

/-- The server's result-conversion loop: the first item carrying an
error aborts the whole batch. -/
def buildResponses : List FetchResult → Nat → Except String (List TTSResp)
  | [], _ => .ok []
  | r :: rest, i =>
      match r.err with
      | some e => .error ("request " ++ toString i ++ " failed: " ++ e)
      | none =>
          match buildResponses rest (i + 1) with
          | .error e => .error e
          | .ok resps =>
              .ok ({ cached := r.cached, audioData := r.audioData
                     cacheKey := r.cacheKey
                     audioSize := r.audioData.length } :: resps)

/-- `BulkFetchTTS`: validate, force-refresh if any item asks for it,
fan out `GetAudio` (modelled by the oracle `fetch`, one result per
request in order, exactly as `BulkGetAudio` fills `results[idx]`),
then convert — aborting on the first per-item error. -/
def BulkFetchTTS (reqs : List TTSReq)
    (fetch : String → String → Bool → FetchResult) :
    Except String (List TTSResp) :=
  if reqs.isEmpty then .error "at least one request is required"
  else
    match validateReqs reqs 0 with
    | some e => .error e
    | none =>
        let forceRefresh := reqs.any (·.forceRefresh)
        let results := reqs.map fun r => fetch r.text r.languageCode forceRefresh
        buildResponses results 0

/-! ## One `GetAudio` call with explicit collaborator outcomes
(`service.go`), for the cache-write-failure claim -/

/-- The fields of an `inFlightFetch` record as they stand when its
channel is closed; every caller of the fetch — the leader and each
waiter — returns exactly these fields. -/
structure FlightRecord where
  audioData : Bytes
  cacheKey : String
  cached : Bool
  err : Option String
deriving DecidableEq

/-- The leader's path through `GetAudio` after the cache miss:
synthesize, then store.  A put failure is logged, the key falls back
to the derived key, and `err` is never set on this path. -/
def leaderOutcome (derivedKey : String) (synthResult : Except String Bytes)
    (putResult : Except String String) : FlightRecord :=
  match synthResult with
  | .error e =>
      { audioData := [], cacheKey := "", cached := false
        err := some ("Azure synthesis failed: " ++ e) }
  | .ok audioData =>
      let cacheKey :=
        match putResult with
        | .ok k => k
        | .error _ => derivedKey
      { audioData := audioData, cacheKey := cacheKey, cached := false
        err := none }

/-- One `GetAudio` call: cache lookup first unless `forceRefresh`,
then the leader path with the given collaborator outcomes. -/
def GetAudio (cacheResult : Except String (Option CachedAudio))
    (derivedKey : String) (synthResult : Except String Bytes)
    (putResult : Except String String) (forceRefresh : Bool) :
    Bytes × String × Bool × Option String :=
  let fetch :=
    let f := leaderOutcome derivedKey synthResult putResult
    (f.audioData, f.cacheKey, f.cached, f.err)
  if forceRefresh then fetch
  else
    match cacheResult with
    | .error e => ([], "", false, some ("cache lookup failed: " ++ e))
    | .ok (some ca) => (ca.audioData, ca.cacheKey, true, none)
    | .ok none => fetch

/-! ## Helper lemmas about the store -/

/-- Looking up the key just written by `INSERT OR REPLACE` finds the
new row. -/
theorem Store.lookup_insertOrReplace (s : Store) (e : CachedAudio) :
    (s.insertOrReplace e).lookup e.cacheKey = some e := by
  unfold Store.insertOrReplace Store.lookup
  rw [List.find?_append]
  have h1 : (s.filter fun x => x.cacheKey != e.cacheKey).find?
      (fun x => x.cacheKey == e.cacheKey) = none := by
    rw [List.find?_eq_none]
    intro x hx
    have hx2 := List.of_mem_filter hx
    simp only [bne_iff_ne, ne_eq] at hx2
    simp [hx2]
  simp [h1]

/-- A lookup commutes with a row-wise rewrite that preserves keys. -/
theorem Store.lookup_map (s : Store) (f : CachedAudio → CachedAudio)
    (hf : ∀ e, (f e).cacheKey = e.cacheKey) (k : String) :
    Store.lookup (s.map f) k = (Store.lookup s k).map f := by
  unfold Store.lookup
  rw [List.find?_map]
  have hp : ((fun e => e.cacheKey == k) ∘ f) =
      (fun e : CachedAudio => e.cacheKey == k) := by
    funext e
    simp [Function.comp, hf e]
  rw [hp]

/-- The decoded audio a read returns (`none` = not found). -/
def getData (c : Cache) (s : Store) (text languageCode : String)
    (now : Nat) : Except String (Option Bytes) :=
  (c.Get s text languageCode now).result.map (Option.map CachedAudio.audioData)

/-! ## C1 — key determinism -/

/-- C1, counterexample: the spec's example is false on the code.
`NormalizeText` strips punctuation from the end only, so
`"Hello, World!"` normalizes to `"hello, world"`, not `"hello world"`,
and the two cache keys differ. -/
theorem generateCacheKey_comma_counterexample :
    GenerateCacheKey "Hello, World!" "en-US" ≠
      GenerateCacheKey "hello world" "en-US" := by
  decide

/-- C1, amended: derived keys are invariant under case, internal
white-space runs, surrounding white space and trailing punctuation
(internal punctuation is preserved), and the language code
distinguishes keys for identical text. -/
theorem generateCacheKey_determinism :
    GenerateCacheKey "Hello,   World!" "en-US" =
      GenerateCacheKey "hello, world" "en-US" ∧
    GenerateCacheKey "hello" "en-US" ≠ GenerateCacheKey "hello" "fr-FR" := by
  constructor
  · decide
  · decide

/-! ## C2 — the eviction scenario -/

set_option maxRecDepth 400000 in
/-- C2, counterexample: after the 20th insert the eviction pass is a
no-op (the total, 1,000,000 bytes, does not *exceed* the budget), so
the stored total is 1,000,000 — not at most the 900,000 hysteresis
target the claim states. -/
theorem evictionScenario_counterexample :
    (scenarioAfter 20).totalSize = 1000000 ∧
    ¬ ((scenarioAfter 20).totalSize ≤ 900000) := by
  constructor
  · decide
  · decide

set_option maxRecDepth 400000 in
/-- C2, amended: after the last insert and its eviction pass the total
stays within the 1,000,000-byte budget (exactly 1,000,000 here), the
survivors are exactly the ten most-recently-accessed entries (11–20;
the oldest-accessed are gone), and the hysteresis target is what the
last pass that actually evicts — the one after the 19th insert —
leaves behind: 900,000 bytes. -/
theorem evictionScenario_correct :
    (scenarioAfter 20).totalSize ≤ 1000000 ∧
    (scenarioAfter 20).map CachedAudio.cacheKey =
      (List.range' 11 10).map (fun i => "entry-" ++ toString i) ∧
    (scenarioAfter 19).totalSize = 900000 := by
  refine ⟨by decide, by decide, by decide⟩

/-! ## C3 — bulk all-or-nothing -/

/-- The conversion loop aborts with an error as soon as any item
carries one. -/
theorem buildResponses_error (results : List FetchResult) :
    ∀ i : Nat, (∃ r ∈ results, r.err.isSome) →
      ∃ e, buildResponses results i = .error e := by
  induction results with
  | nil => simp
  | cons r rest ih =>
      intro i h
      obtain ⟨x, hx, hxe⟩ := h
      cases hr : r.err with
      | some e =>
          refine ⟨"request " ++ toString i ++ " failed: " ++ e, ?_⟩
          unfold buildResponses
          rw [hr]
      | none =>
          rcases List.mem_cons.mp hx with hx0 | hx1
          · subst hx0
            rw [hr] at hxe
            simp at hxe
          · obtain ⟨e', he'⟩ := ih (i + 1) ⟨x, hx1, hxe⟩
            refine ⟨e', ?_⟩
            unfold buildResponses
            rw [hr, he']

/-- C3: if any single item's fetch fails, `BulkFetchTTS` returns an
error for the whole batch — no partial per-item results. -/
theorem bulkFetch_allOrNothing (reqs : List TTSReq)
    (fetch : String → String → Bool → FetchResult)
    (h : ∃ r ∈ reqs,
      (fetch r.text r.languageCode (reqs.any (·.forceRefresh))).err.isSome) :
    ∃ e, BulkFetchTTS reqs fetch = .error e := by
  obtain ⟨r, hr, hre⟩ := h
  have hne : reqs.isEmpty = false := by
    cases reqs with
    | nil => simp at hr
    | cons a l => rfl
  unfold BulkFetchTTS
  rw [hne]
  simp only [Bool.false_eq_true, if_false]
  cases hv : validateReqs reqs 0 with
  | some e => exact ⟨e, rfl⟩
  | none =>
      exact buildResponses_error _ 0
        ⟨fetch r.text r.languageCode (reqs.any (·.forceRefresh)),
         List.mem_map_of_mem _ hr, hre⟩

/-- A concrete two-item batch used by the bulk witness. -/
def bulkReqs : List TTSReq :=
  [⟨"hi", "en-US", false⟩, ⟨"yo", "fr-FR", false⟩]

/-- A fetch oracle whose second item fails. -/
def bulkOracle : String → String → Bool → FetchResult := fun t _ _ =>
  if t = "yo" then ⟨[], "", false, some "synthesis failed"⟩
  else ⟨[1], "k", false, none⟩

/-- C3, witness: a concrete two-item batch whose second item fails
yields a batch-level error. -/
theorem bulkFetch_allOrNothing_witness :
    (∃ r ∈ bulkReqs, (bulkOracle r.text r.languageCode
        (bulkReqs.any (·.forceRefresh))).err.isSome) ∧
    ∃ e, BulkFetchTTS bulkReqs bulkOracle = .error e :=
  ⟨by decide, bulkFetch_allOrNothing bulkReqs bulkOracle (by decide)⟩

/-! ## C5 — cache-write failure is non-fatal -/

/-- C5: when synthesis succeeds and the cache `Put` fails, the flight
record every caller returns carries the synthesized bytes, the derived
key, `cached = false` and no error — the store failure is only
logged. -/
theorem cacheWriteFailure_nonFatal (derivedKey : String) (b : Bytes)
    (e : String) :
    leaderOutcome derivedKey (.ok b) (.error e) =
      { audioData := b, cacheKey := derivedKey, cached := false, err := none } ∧
    GetAudio (.ok none) derivedKey (.ok b) (.error e) false =
      (b, derivedKey, false, none) ∧
    ∀ cacheResult, GetAudio cacheResult derivedKey (.ok b) (.error e) true =
      (b, derivedKey, false, none) :=
  ⟨rfl, rfl, fun _ => rfl⟩

/-! ## C9 — stats accounting -/

/-- C9: after any sequence of puts and deletes, `GetStats` reports the
exact surviving entry count and the exact sum of their `audio_size`
values, and carries the budget fields exactly when a non-zero size
limit is configured. -/
theorem getStats_accounting (c : Cache) (ops : List CacheOp) :
    (c.GetStats (applyOps c ops)).totalSize =
      ((applyOps c ops).map CachedAudio.audioSize).sum ∧
    (c.GetStats (applyOps c ops)).totalClips = (applyOps c ops).length ∧
    ((c.GetStats (applyOps c ops)).maxSizeMB.isSome ↔ 0 < c.maxSizeBytes) ∧
    ((c.GetStats (applyOps c ops)).usagePercent.isSome ↔ 0 < c.maxSizeBytes) := by
  refine ⟨rfl, rfl, ?_, ?_⟩ <;>
    · by_cases h : 0 < c.maxSizeBytes <;> simp [Cache.GetStats, h]

/-! ## C10 — compressed entries are unreadable without a decoder -/

/-- C10: a stored row marked `zstd` read through a cache built with
compression disabled (no decoder initialized) yields an error, not raw
or decoded bytes. -/
theorem get_compressed_without_decoder (z : Codec) (maxMB : Nat) (s : Store)
    (t l : String) (now : Nat) (e : CachedAudio)
    (hl : s.lookup (GenerateCacheKey t l) = some e)
    (hc : e.compression = some "zstd") :
    ((NewCache z false maxMB).Get s t l now).result =
      .error "zstd decoder not initialized" := by
  unfold Cache.Get
  simp [hl, hc, NewCache]

/-- C10, witness: a concrete compressed row is unreadable through a
compression-disabled cache. -/
theorem get_compressed_without_decoder_witness :
    ((NewCache idCodec false 0).Get
      [⟨GenerateCacheKey "a" "en", "a", "en", [1], 1, some "zstd", 0, 0⟩]
      "a" "en" 0).result = .error "zstd decoder not initialized" :=
  get_compressed_without_decoder idCodec 0 _ "a" "en" 0
    ⟨GenerateCacheKey "a" "en", "a", "en", [1], 1, some "zstd", 0, 0⟩
    (by decide) rfl

/-! ## C6 — cache round-trip and idempotence -/

/-- Variant of the insert-lookup lemma with the key given
explicitly. -/
theorem Store.lookup_insertOrReplace_key (s : Store) (e : CachedAudio)
    (k : String) (hk : e.cacheKey = k) :
    Store.lookup (s.insertOrReplace e) k = some e :=
  hk ▸ Store.lookup_insertOrReplace s e

/-- One put followed by one get returns the payload bit-exact, for
either compression setting, provided the codec round-trips. -/
theorem putGet_roundTrip (z : Codec) (hz : z.RoundTrip) (enabled : Bool)
    (maxMB : Nat) (s : Store) (t l : String) (P : Bytes) (now now2 : Nat) :
    ∃ key s₁ ev, (NewCache z enabled maxMB).Put s t l P now = .ok (key, s₁, ev) ∧
      getData (NewCache z enabled maxMB) s₁ t l now2 = .ok (some P) := by
  cases enabled with
  | true =>
      refine ⟨GenerateCacheKey t l,
        Store.insertOrReplace s
          { cacheKey := GenerateCacheKey t l, text := t, languageCode := l
            audioData := z.encode P, audioSize := (z.encode P).length
            compression := some "zstd", createdAt := now, lastAccessed := now },
        _, rfl, ?_⟩
      unfold getData Cache.Get
      rw [Store.lookup_insertOrReplace_key s _ (GenerateCacheKey t l) rfl]
      simp [NewCache, hz P, Except.map]
  | false =>
      refine ⟨GenerateCacheKey t l,
        Store.insertOrReplace s
          { cacheKey := GenerateCacheKey t l, text := t, languageCode := l
            audioData := P, audioSize := P.length
            compression := none, createdAt := now, lastAccessed := now },
        _, rfl, ?_⟩
      unfold getData Cache.Get
      rw [Store.lookup_insertOrReplace_key s
          { cacheKey := GenerateCacheKey t l, text := t, languageCode := l
            audioData := P, audioSize := P.length
            compression := none, createdAt := now, lastAccessed := now }
          (GenerateCacheKey t l) rfl]
      simp [NewCache, Except.map]

/-- C6: `put(t,l,P); get(t,l)` returns `P` bit-exact whatever the
compression setting, and a second `put` of the same `P` followed by
`get` still yields `P` — assuming only that the configured codec
round-trips. -/
theorem cache_roundTrip_idempotent (z : Codec) (hz : z.RoundTrip)
    (enabled : Bool) (maxMB : Nat) (s : Store) (t l : String) (P : Bytes)
    (now now2 now3 now4 : Nat) :
    ∃ key s₁ ev, (NewCache z enabled maxMB).Put s t l P now = .ok (key, s₁, ev) ∧
      getData (NewCache z enabled maxMB) s₁ t l now2 = .ok (some P) ∧
      ∃ key₂ s₂ ev₂,
        (NewCache z enabled maxMB).Put s₁ t l P now3 = .ok (key₂, s₂, ev₂) ∧
        getData (NewCache z enabled maxMB) s₂ t l now4 = .ok (some P) := by
  obtain ⟨key, s₁, ev, h1, h2⟩ :=
    putGet_roundTrip z hz enabled maxMB s t l P now now2
  obtain ⟨key₂, s₂, ev₂, h3, h4⟩ :=
    putGet_roundTrip z hz enabled maxMB s₁ t l P now3 now4
  exact ⟨key, s₁, ev, h1, h2, key₂, s₂, ev₂, h3, h4⟩

/-- C6, witness: the round-trip at a concrete payload with the
identity codec and compression enabled. -/
theorem cache_roundTrip_idempotent_witness :
    idCodec.RoundTrip ∧
    (∃ key s₁ ev, (NewCache idCodec true 1).Put [] "hi" "en-US" [3, 1, 4] 1 =
        .ok (key, s₁, ev) ∧
      getData (NewCache idCodec true 1) s₁ "hi" "en-US" 2 = .ok (some [3, 1, 4]) ∧
      ∃ key₂ s₂ ev₂,
        (NewCache idCodec true 1).Put s₁ "hi" "en-US" [3, 1, 4] 3 =
          .ok (key₂, s₂, ev₂) ∧
        getData (NewCache idCodec true 1) s₂ "hi" "en-US" 4 =
          .ok (some [3, 1, 4])) :=
  ⟨idCodec_roundTrip,
   cache_roundTrip_idempotent idCodec idCodec_roundTrip true 1 [] "hi" "en-US"
     [3, 1, 4] 1 2 3 4⟩

/-! ## C8 — size accounting on every write -/

/-- C8: every row written by `Put` carries `audio_size` equal to the
length of the payload stored in that same operation, and so does every
row the background recompression rewrites. -/
theorem sizeAccounting_writes :
    (∀ (c : Cache) (s : Store) (t l : String) (d : Bytes) (now : Nat)
       (key : String) (s' : Store) (ev : Bool),
       c.Put s t l d now = .ok (key, s', ev) →
       ∀ e ∈ s', e.cacheKey = key → e.audioSize = e.audioData.length) ∧
    (∀ (c : Cache) (s : Store) (key : String) (d : Bytes),
       ∀ e ∈ c.recompressEntry s key d, e ∉ s →
         e.audioSize = e.audioData.length) := by
  constructor
  · intro c s t l d now key s' ev hput e he hekey
    by_cases hc : c.compressionEnabled
    · cases henc : c.encoder with
      | none => simp [Cache.Put, hc, henc] at hput
      | some enc =>
          simp only [Cache.Put, hc, henc, if_true] at hput
          obtain ⟨hkey, hs', -⟩ := by
            simpa using hput
          subst hs'
          rcases List.mem_append.mp he with hef | her
          · have hne := List.of_mem_filter hef
            rw [hekey, ← hkey] at hne
            simp at hne
          · simp only [List.mem_singleton] at her
            subst her
            rfl
    · simp only [Cache.Put, hc, if_false] at hput
      obtain ⟨hkey, hs', -⟩ := by
        simpa using hput
      subst hs'
      rcases List.mem_append.mp he with hef | her
      · have hne := List.of_mem_filter hef
        rw [hekey, ← hkey] at hne
        simp at hne
      · simp only [List.mem_singleton] at her
        subst her
        rfl
  · intro c s key d e he hnotin
    unfold Cache.recompressEntry at he
    cases henc : c.encoder with
    | none =>
        rw [henc] at he
        exact absurd he hnotin
    | some enc =>
        rw [henc] at he
        obtain ⟨a, ha, hfa⟩ := List.mem_map.mp he
        by_cases hcond : (a.cacheKey == key && a.compression.isNone) = true
        · rw [if_pos hcond] at hfa
          subst hfa
          rfl
        · rw [if_neg hcond] at hfa
          subst hfa
          exact absurd ha hnotin

/-- A concrete uncompressed row as `Put` writes it. -/
def wRowPut : CachedAudio :=
  ⟨GenerateCacheKey "a" "en", "a", "en", [5, 6], 2, none, 3, 3⟩

/-- The same row after the background recompression (identity codec). -/
def wRowZstd : CachedAudio :=
  ⟨GenerateCacheKey "a" "en", "a", "en", [5, 6], 2, some "zstd", 3, 3⟩

/-- C8, witness: a concrete `Put`-written row and a concrete
recompressed row both carry their stored payload's exact length. -/
theorem sizeAccounting_writes_witness :
    wRowPut.audioSize = wRowPut.audioData.length ∧
    wRowZstd.audioSize = wRowZstd.audioData.length :=
  ⟨sizeAccounting_writes.1 (NewCache idCodec false 0) [] "a" "en" [5, 6] 3
     (GenerateCacheKey "a" "en") [wRowPut] false (by decide) wRowPut
     (by decide) rfl,
   sizeAccounting_writes.2 (NewCache idCodec true 0) [wRowPut]
     (GenerateCacheKey "a" "en") [5, 6] wRowZstd (by decide) (by decide)⟩

/-! ## C7 — guarded opportunistic recompression -/

/-- With unique keys (the table's primary-key invariant), any member
carrying the looked-up key is the row the lookup found. -/
theorem Store.lookup_eq_of_nodup (s : Store) (k : String)
    (hnd : (s.map CachedAudio.cacheKey).Nodup) (e₀ a : CachedAudio)
    (h0 : Store.lookup s k = some e₀) (ha : a ∈ s) (hak : a.cacheKey = k) :
    a = e₀ := by
  have he0mem : e₀ ∈ s := List.mem_of_find?_eq_some h0
  have he0k : e₀.cacheKey = k := by
    have hfound := List.find?_some h0
    simpa using hfound
  exact List.inj_on_of_nodup_map hnd ha he0mem (by rw [hak, he0k])

/-- What a spawned recompression task tells us about the table: the
lookup hit an uncompressed row whose data is the task's payload, and
the task's key is the derived key. -/
theorem recompressSpawned_inversion (c : Cache) (s : Store) (t l : String)
    (now : Nat) (key : String) (d : Bytes)
    (h : (c.Get s t l now).recompressSpawned = some (key, d)) :
    key = GenerateCacheKey t l ∧
    ∃ e₀, Store.lookup s (GenerateCacheKey t l) = some e₀ ∧
      e₀.compression = none ∧ d = e₀.audioData := by
  unfold Cache.Get at h
  cases hlk : Store.lookup s (GenerateCacheKey t l) with
  | none =>
      simp only [hlk] at h
      exact Option.noConfusion h
  | some e₀ =>
      simp only [hlk] at h
      by_cases hzc : e₀.compression = some "zstd"
      · rw [if_pos hzc] at h
        cases hdec : c.decoder with
        | none =>
            simp only [hdec] at h
            exact Option.noConfusion h
        | some dec =>
            simp only [hdec] at h
            cases hda : dec e₀.audioData with
            | error e =>
                simp only [hda] at h
                exact Option.noConfusion h
            | ok dc =>
                simp only [hda] at h
                exact Option.noConfusion h
      · rw [if_neg hzc] at h
        by_cases hcond : (c.compressionEnabled && e₀.compression.isNone) = true
        · rw [if_pos hcond] at h
          obtain ⟨hk, hd⟩ := by
            simpa using h
          have hnone : e₀.compression = none := by
            have hb := (Bool.and_eq_true _ _).mp hcond
            exact Option.isNone_iff_eq_none.mp hb.2
          exact ⟨hk.symm, e₀, rfl, hnone, hd.symm⟩
        · rw [if_neg hcond] at h
          simp at h

/-- C7: the background recompression rewrites a row only while it is
still uncompressed — a table whose matching rows are all compressed is
left exactly as it was — and when a read of an uncompressed row under
an enabled, round-tripping codec spawns the task, every rewritten row
decodes back to the task's original uncompressed bytes, and the
decoded content every subsequent read returns is unchanged (so a
skipped or failed rewrite, which leaves the table untouched, is
invisible to readers — the triggering read itself already returned a
result computed from the pre-state alone). -/
theorem recompress_guarded :
    (∀ (c : Cache) (s : Store) (key : String) (d : Bytes),
       (∀ e ∈ s, e.cacheKey = key → e.compression ≠ none) →
       c.recompressEntry s key d = s) ∧
    (∀ (z : Codec), z.RoundTrip →
     ∀ (maxMB : Nat) (s : Store) (t l : String) (now : Nat)
       (key : String) (d : Bytes),
       ((NewCache z true maxMB).Get s t l now).recompressSpawned =
         some (key, d) →
       (s.map CachedAudio.cacheKey).Nodup →
       (∀ e ∈ (NewCache z true maxMB).recompressEntry s key d,
          e.cacheKey = key → z.decode e.audioData = .ok d) ∧
       (∀ t' l' now', getData (NewCache z true maxMB)
           ((NewCache z true maxMB).recompressEntry s key d) t' l' now' =
         getData (NewCache z true maxMB) s t' l' now')) := by
  constructor
  · intro c s key d hall
    unfold Cache.recompressEntry
    cases c.encoder with
    | none => rfl
    | some enc =>
        simp only
        conv_rhs => rw [← List.map_id s]
        apply List.map_congr_left
        intro e he
        have hcond : (e.cacheKey == key && e.compression.isNone) = false := by
          by_cases hkey : e.cacheKey = key
          · have hcomp := hall e he hkey
            have hnn : e.compression.isNone = false := by
              cases hc : e.compression with
              | none => exact absurd hc hcomp
              | some v => rfl
            simp [hnn]
          · simp [hkey]
        rw [hcond]
        simp
  · intro z hz maxMB s t l now key d hspawn hnd
    obtain ⟨hkeyeq, e₀, hlk, hcomp0, hd⟩ :=
      recompressSpawned_inversion _ s t l now key d hspawn
    subst hkeyeq
    subst hd
    have henc : (NewCache z true maxMB).encoder = some z.encode := rfl
    constructor
    · intro e he hekey
      unfold Cache.recompressEntry at he
      rw [henc] at he
      obtain ⟨a, ha, hfa⟩ := List.mem_map.mp he
      by_cases hcond : (a.cacheKey == GenerateCacheKey t l &&
          a.compression.isNone) = true
      · rw [if_pos hcond] at hfa
        subst hfa
        simp only
        rw [hz]
      · rw [if_neg hcond] at hfa
        subst hfa
        have ha0 : a = e₀ :=
          Store.lookup_eq_of_nodup s (GenerateCacheKey t l) hnd e₀ a hlk ha
            hekey
        subst ha0
        rw [hekey, hcomp0] at hcond
        simp at hcond
    · intro t' l' now'
      unfold getData Cache.Get Cache.recompressEntry
      rw [henc]
      rw [Store.lookup_map s _ (fun e => by split <;> rfl)
        (GenerateCacheKey t' l')]
      cases hlk' : Store.lookup s (GenerateCacheKey t' l') with
      | none => rfl
      | some a =>
          simp only [Option.map_some']
          by_cases hcond : (a.cacheKey == GenerateCacheKey t l &&
              a.compression.isNone) = true
          · rw [if_pos hcond]
            have hak : a.cacheKey = GenerateCacheKey t l := by
              have := (Bool.and_eq_true _ _).mp hcond
              exact beq_iff_eq.mp this.1
            have ha0 : a = e₀ :=
              Store.lookup_eq_of_nodup s (GenerateCacheKey t l) hnd e₀ a hlk
                (List.mem_of_find?_eq_some hlk') hak
            subst ha0
            have hza := hz a.audioData
            simp [NewCache, hza, hcomp0, Except.map]
          · rw [if_neg hcond]

/-- C7, witness: concretely, a table whose only matching row is
already compressed is left unchanged; the rewrite of an uncompressed
row decodes back to its original bytes; and a read after the rewrite
returns the same decoded content as before it. -/
theorem recompress_guarded_witness :
    ((NewCache idCodec true 0).recompressEntry [wRowZstd]
       (GenerateCacheKey "a" "en") [9] = [wRowZstd]) ∧
    idCodec.decode wRowZstd.audioData = .ok [5, 6] ∧
    getData (NewCache idCodec true 0)
        ((NewCache idCodec true 0).recompressEntry [wRowPut]
          (GenerateCacheKey "a" "en") [5, 6]) "a" "en" 7 =
      getData (NewCache idCodec true 0) [wRowPut] "a" "en" 7 :=
  ⟨recompress_guarded.1 (NewCache idCodec true 0) [wRowZstd]
     (GenerateCacheKey "a" "en") [9] (by decide),
   (recompress_guarded.2 idCodec idCodec_roundTrip 0 [wRowPut] "a" "en" 5
      (GenerateCacheKey "a" "en") [5, 6] (by decide) (by decide)).1 wRowZstd
     (by decide) rfl,
   (recompress_guarded.2 idCodec idCodec_roundTrip 0 [wRowPut] "a" "en" 5
      (GenerateCacheKey "a" "en") [5, 6] (by decide) (by decide)).2 "a" "en" 7⟩

/-! ## C4 — single-flight deduplication -/

/-- Splitting a thread-map update at an arbitrary index. -/
theorem update_pc_cases {n : Nat} (t : Fin n → SFPC) (i : Fin n) (v : SFPC)
    (j : Fin n) (w : SFPC) (hj : Function.update t i v j = w) :
    (j = i ∧ v = w) ∨ (j ≠ i ∧ t j = w) := by
  by_cases hji : j = i
  · subst hji
    rw [Function.update_same] at hj
    exact Or.inl ⟨rfl, hj⟩
  · rw [Function.update_noteq hji] at hj
    exact Or.inr ⟨hji, hj⟩

/-- `lookupFlight` on a freshly recorded flight. -/
theorem lookupFlight_cons (fid' : Nat) (b : Bytes) (fd : List (Nat × Bytes))
    (fid : Nat) :
    lookupFlight ((fid', b) :: fd) fid =
      if fid' == fid then some b else lookupFlight fd fid := by
  unfold lookupFlight
  cases h : fid' == fid <;> simp [List.find?, h]

/-- Recording one more flight never loses an existing record. -/
theorem lookupFlight_cons_isSome (fid' : Nat) (b : Bytes)
    (fd : List (Nat × Bytes)) (fid : Nat)
    (h : (lookupFlight fd fid).isSome = true) :
    (lookupFlight ((fid', b) :: fd) fid).isSome = true := by
  rw [lookupFlight_cons]
  split <;> simp_all

/-- A successful flight lookup goes through a recorded pair. -/
theorem lookupFlight_mem (fd : List (Nat × Bytes)) (fid : Nat) (b : Bytes)
    (h : lookupFlight fd fid = some b) : ∃ p ∈ fd, p.2 = b := by
  unfold lookupFlight at h
  cases hf : fd.find? fun p => p.1 == fid with
  | none => rw [hf] at h; simp at h
  | some p =>
      rw [hf] at h
      simp only [Option.map_some'] at h
      exact ⟨p, List.mem_of_find?_eq_some hf, by simpa using h⟩

/-- Invariants binding every recorded byte value to the synthesizer's
output `B`: the cache holds `B` or nothing, every flight record holds
`B`, a resolved or about-to-close flight has a record, and every
completed call returned `B`. -/
def sfDataInv (B : Bytes) {n : Nat} (s : SFState n) : Prop :=
  (∀ b, s.cache = some b → b = B) ∧
  (∀ p ∈ s.flightData, p.2 = B) ∧
  (∀ fid ∈ s.resolved, (lookupFlight s.flightData fid).isSome = true) ∧
  (∀ i fid, s.threads i = .close fid →
    (lookupFlight s.flightData fid).isSome = true) ∧
  (∀ i b c, s.threads i = .done b c → b = B)

/-- A recorded-and-found flight value is `B` under the invariant. -/
theorem lookupFlight_getD_eq (B : Bytes) (fd : List (Nat × Bytes)) (fid : Nat)
    (hall : ∀ p ∈ fd, p.2 = B)
    (hsome : (lookupFlight fd fid).isSome = true) :
    (lookupFlight fd fid).getD [] = B := by
  cases hf : lookupFlight fd fid with
  | none => rw [hf] at hsome; simp at hsome
  | some b =>
      obtain ⟨p, hp, hpb⟩ := lookupFlight_mem fd fid b hf
      simp [hall p hp ▸ hpb]

/-- One scheduler step preserves the data invariant. -/
theorem sfDataInv_step (B : Bytes) {n : Nat} (s : SFState n) (i : Fin n)
    (h : sfDataInv B s) : sfDataInv B (sfStep B s i) := by
  obtain ⟨hc, hfd, hres, hclose, hdone⟩ := h
  cases hti : s.threads i with
  | cacheCheck =>
      cases hca : s.cache with
      | some b =>
          simp only [sfStep, hti, hca]
          refine ⟨?_, hfd, hres, ?_, ?_⟩
          · intro b1 hb1
            cases hb1
            exact hc b hca
          · intro j fid hj
            rcases update_pc_cases _ _ _ _ _ hj with ⟨-, hv⟩ | ⟨-, hold⟩
            · exact SFPC.noConfusion hv
            · exact hclose j fid hold
          · intro j b' c' hj
            rcases update_pc_cases _ _ _ _ _ hj with ⟨-, hv⟩ | ⟨-, hold⟩
            · cases hv
              exact hc b hca
            · exact hdone j b' c' hold
      | none =>
          simp only [sfStep, hti, hca]
          refine ⟨?_, hfd, hres, ?_, ?_⟩
          · intro b1 hb1
            exact Option.noConfusion hb1
          · intro j fid hj
            rcases update_pc_cases _ _ _ _ _ hj with ⟨-, hv⟩ | ⟨-, hold⟩
            · exact SFPC.noConfusion hv
            · exact hclose j fid hold
          · intro j b' c' hj
            rcases update_pc_cases _ _ _ _ _ hj with ⟨-, hv⟩ | ⟨-, hold⟩
            · exact SFPC.noConfusion hv
            · exact hdone j b' c' hold
  | flightCheck =>
      cases hfl : s.inFlightId with
      | some fid0 =>
          simp only [sfStep, hti, hfl]
          refine ⟨hc, hfd, hres, ?_, ?_⟩
          · intro j fid hj
            rcases update_pc_cases _ _ _ _ _ hj with ⟨-, hv⟩ | ⟨-, hold⟩
            · exact SFPC.noConfusion hv
            · exact hclose j fid hold
          · intro j b' c' hj
            rcases update_pc_cases _ _ _ _ _ hj with ⟨-, hv⟩ | ⟨-, hold⟩
            · exact SFPC.noConfusion hv
            · exact hdone j b' c' hold
      | none =>
          simp only [sfStep, hti, hfl]
          refine ⟨hc, hfd, hres, ?_, ?_⟩
          · intro j fid hj
            rcases update_pc_cases _ _ _ _ _ hj with ⟨-, hv⟩ | ⟨-, hold⟩
            · exact SFPC.noConfusion hv
            · exact hclose j fid hold
          · intro j b' c' hj
            rcases update_pc_cases _ _ _ _ _ hj with ⟨-, hv⟩ | ⟨-, hold⟩
            · exact SFPC.noConfusion hv
            · exact hdone j b' c' hold
  | synth fid0 =>
      simp only [sfStep, hti]
      refine ⟨hc, hfd, hres, ?_, ?_⟩
      · intro j fid hj
        rcases update_pc_cases _ _ _ _ _ hj with ⟨-, hv⟩ | ⟨-, hold⟩
        · exact SFPC.noConfusion hv
        · exact hclose j fid hold
      · intro j b' c' hj
        rcases update_pc_cases _ _ _ _ _ hj with ⟨-, hv⟩ | ⟨-, hold⟩
        · exact SFPC.noConfusion hv
        · exact hdone j b' c' hold
  | store fid0 =>
      simp only [sfStep, hti]
      refine ⟨?_, ?_, ?_, ?_, ?_⟩
      · intro b hb
        cases hb
        rfl
      · intro p hp
        rcases List.mem_cons.mp hp with rfl | hp'
        · rfl
        · exact hfd p hp'
      · intro fid hfid
        exact lookupFlight_cons_isSome _ _ _ _ (hres fid hfid)
      · intro j fid hj
        rcases update_pc_cases _ _ _ _ _ hj with ⟨-, hv⟩ | ⟨-, hold⟩
        · cases hv
          rw [lookupFlight_cons]
          simp
        · exact lookupFlight_cons_isSome _ _ _ _ (hclose j fid hold)
      · intro j b' c' hj
        rcases update_pc_cases _ _ _ _ _ hj with ⟨-, hv⟩ | ⟨-, hold⟩
        · exact SFPC.noConfusion hv
        · exact hdone j b' c' hold
  | close fid0 =>
      simp only [sfStep, hti]
      refine ⟨hc, hfd, ?_, ?_, ?_⟩
      · intro fid hfid
        rcases List.mem_cons.mp hfid with rfl | hfid'
        · exact hclose i fid hti
        · exact hres fid hfid'
      · intro j fid hj
        rcases update_pc_cases _ _ _ _ _ hj with ⟨-, hv⟩ | ⟨-, hold⟩
        · exact SFPC.noConfusion hv
        · exact hclose j fid hold
      · intro j b' c' hj
        rcases update_pc_cases _ _ _ _ _ hj with ⟨-, hv⟩ | ⟨-, hold⟩
        · cases hv
          exact lookupFlight_getD_eq B _ fid0 hfd (hclose i fid0 hti)
        · exact hdone j b' c' hold
  | waiting fid0 =>
      by_cases hmem : fid0 ∈ s.resolved
      · simp only [sfStep, hti, if_pos hmem]
        refine ⟨hc, hfd, hres, ?_, ?_⟩
        · intro j fid hj
          rcases update_pc_cases _ _ _ _ _ hj with ⟨-, hv⟩ | ⟨-, hold⟩
          · exact SFPC.noConfusion hv
          · exact hclose j fid hold
        · intro j b' c' hj
          rcases update_pc_cases _ _ _ _ _ hj with ⟨-, hv⟩ | ⟨-, hold⟩
          · cases hv
            exact lookupFlight_getD_eq B _ fid0 hfd (hres fid0 hmem)
          · exact hdone j b' c' hold
      · simp only [sfStep, hti, if_neg hmem]
        exact ⟨hc, hfd, hres, hclose, hdone⟩
  | done b0 c0 =>
      simp only [sfStep, hti]
      exact ⟨hc, hfd, hres, hclose, hdone⟩

/-- A step-preserved predicate holds after any schedule. -/
theorem sfRun_inv (B : Bytes) {n : Nat} (P : SFState n → Prop)
    (hstep : ∀ s i, P s → P (sfStep B s i)) :
    ∀ (L : List (Fin n)) (s : SFState n), P s → P (sfRun B s L) := by
  intro L
  induction L with
  | nil => exact fun s hs => hs
  | cons a L ih => exact fun s hs => ih (sfStep B s a) (hstep s a hs)

/-- The data invariant holds in every reachable state. -/
theorem sfDataInv_run (B : Bytes) {n : Nat} (sched : List (Fin n)) :
    sfDataInv B (sfRun B (sfInit n) sched) := by
  apply sfRun_inv B (sfDataInv B) (sfDataInv_step B) sched
  refine ⟨?_, ?_, ?_, ?_, ?_⟩
  · intro b hb
    exact Option.noConfusion hb
  · intro p hp
    exact absurd hp (List.not_mem_nil p)
  · intro fid hfid
    exact absurd hfid (List.not_mem_nil fid)
  · intro j fid hj
    exact SFPC.noConfusion hj
  · intro j b c hj
    exact SFPC.noConfusion hj

/-- Control points from which the thread has already charged the
synthesizer. -/
def SFPC.isPostSynth : SFPC → Bool
  | .store _ => true
  | .close _ => true
  | .done _ _ => true
  | _ => false

/-- Invariants forcing at least one synthesizer invocation: a
populated cache, a resolved flight, or any thread at or past its
store imply `synthCount ≥ 1`. -/
def sfCntInv {n : Nat} (s : SFState n) : Prop :=
  (s.cache.isSome = true → 1 ≤ s.synthCount) ∧
  (s.resolved ≠ [] → 1 ≤ s.synthCount) ∧
  (∀ i, (s.threads i).isPostSynth = true → 1 ≤ s.synthCount)

/-- Splitting a post-synth fact about an updated thread map. -/
theorem update_isPostSynth {n : Nat} (t : Fin n → SFPC) (i : Fin n)
    (v : SFPC) (j : Fin n)
    (hj : (Function.update t i v j).isPostSynth = true) :
    v.isPostSynth = true ∨ (t j).isPostSynth = true := by
  by_cases hji : j = i
  · subst hji
    rw [Function.update_same] at hj
    exact Or.inl hj
  · rw [Function.update_noteq hji] at hj
    exact Or.inr hj

/-- One scheduler step preserves the counting invariant. -/
theorem sfCntInv_step (B : Bytes) {n : Nat} (s : SFState n) (i : Fin n)
    (h : sfCntInv s) : sfCntInv (sfStep B s i) := by
  obtain ⟨hc, hr, hp⟩ := h
  cases hti : s.threads i with
  | cacheCheck =>
      cases hca : s.cache with
      | some b =>
          have h1 : 1 ≤ s.synthCount := hc (by rw [hca]; rfl)
          simp only [sfStep, hti, hca]
          exact ⟨fun _ => h1, fun _ => h1, fun _ _ => h1⟩
      | none =>
          simp only [sfStep, hti, hca]
          refine ⟨fun hb => by simp at hb, hr, ?_⟩
          intro j hj
          rcases update_isPostSynth _ _ _ _ hj with hv | hold
          · simp [SFPC.isPostSynth] at hv
          · exact hp j hold
  | flightCheck =>
      cases hfl : s.inFlightId with
      | some fid0 =>
          simp only [sfStep, hti, hfl]
          refine ⟨hc, hr, ?_⟩
          intro j hj
          rcases update_isPostSynth _ _ _ _ hj with hv | hold
          · simp [SFPC.isPostSynth] at hv
          · exact hp j hold
      | none =>
          simp only [sfStep, hti, hfl]
          refine ⟨hc, hr, ?_⟩
          intro j hj
          rcases update_isPostSynth _ _ _ _ hj with hv | hold
          · simp [SFPC.isPostSynth] at hv
          · exact hp j hold
  | synth fid0 =>
      simp only [sfStep, hti]
      exact ⟨fun _ => Nat.le_add_left 1 _, fun _ => Nat.le_add_left 1 _,
             fun _ _ => Nat.le_add_left 1 _⟩
  | store fid0 =>
      have h1 : 1 ≤ s.synthCount := hp i (by rw [hti]; rfl)
      simp only [sfStep, hti]
      exact ⟨fun _ => h1, fun _ => h1, fun _ _ => h1⟩
  | close fid0 =>
      have h1 : 1 ≤ s.synthCount := hp i (by rw [hti]; rfl)
      simp only [sfStep, hti]
      exact ⟨fun _ => h1, fun _ => h1, fun _ _ => h1⟩
  | waiting fid0 =>
      by_cases hmem : fid0 ∈ s.resolved
      · have h1 : 1 ≤ s.synthCount := hr (List.ne_nil_of_mem hmem)
        simp only [sfStep, hti, if_pos hmem]
        exact ⟨fun _ => h1, fun _ => h1, fun _ _ => h1⟩
      · simp only [sfStep, hti, if_neg hmem]
        exact ⟨hc, hr, hp⟩
  | done b0 c0 =>
      simp only [sfStep, hti]
      exact ⟨hc, hr, hp⟩

/-- The counting invariant holds in every reachable state. -/
theorem sfCntInv_run (B : Bytes) {n : Nat} (sched : List (Fin n)) :
    sfCntInv (sfRun B (sfInit n) sched) := by
  apply sfRun_inv B sfCntInv (sfCntInv_step B) sched
  refine ⟨?_, ?_, ?_⟩
  · intro hb
    simp [sfInit] at hb
  · intro hb
    simp [sfInit] at hb
  · intro j hj
    simp [sfInit, SFPC.isPostSynth] at hj

/-- A step acts on the thread map either trivially or at the chosen
index. -/
theorem sfStep_threads_shape (B : Bytes) {n : Nat} (s : SFState n)
    (i : Fin n) :
    (sfStep B s i).threads = s.threads ∨
    ∃ v, (sfStep B s i).threads = Function.update s.threads i v := by
  cases hti : s.threads i with
  | cacheCheck =>
      cases hca : s.cache with
      | some b => simp only [sfStep, hti, hca]; exact Or.inr ⟨_, rfl⟩
      | none => simp only [sfStep, hti, hca]; exact Or.inr ⟨_, rfl⟩
  | flightCheck =>
      cases hfl : s.inFlightId with
      | some fid0 => simp only [sfStep, hti, hfl]; exact Or.inr ⟨_, rfl⟩
      | none => simp only [sfStep, hti, hfl]; exact Or.inr ⟨_, rfl⟩
  | synth fid0 => simp only [sfStep, hti]; exact Or.inr ⟨_, rfl⟩
  | store fid0 => simp only [sfStep, hti]; exact Or.inr ⟨_, rfl⟩
  | close fid0 => simp only [sfStep, hti]; exact Or.inr ⟨_, rfl⟩
  | waiting fid0 =>
      by_cases hmem : fid0 ∈ s.resolved
      · simp only [sfStep, hti, if_pos hmem]; exact Or.inr ⟨_, rfl⟩
      · simp only [sfStep, hti, if_neg hmem]
        exact Or.inl trivial
  | done b0 c0 =>
      simp only [sfStep, hti]
      exact Or.inl trivial

/-- A completed call stays completed under any further step. -/
theorem sfStep_done_mono (B : Bytes) {n : Nat} (s : SFState n)
    (i j : Fin n) (h : (s.threads j).isDone = true) :
    ((sfStep B s i).threads j).isDone = true := by
  by_cases hij : j = i
  · subst hij
    cases hpc : s.threads j with
    | done b c =>
        simp only [sfStep, hpc]
        rfl
    | cacheCheck => rw [hpc] at h; simp [SFPC.isDone] at h
    | flightCheck => rw [hpc] at h; simp [SFPC.isDone] at h
    | synth fid0 => rw [hpc] at h; simp [SFPC.isDone] at h
    | store fid0 => rw [hpc] at h; simp [SFPC.isDone] at h
    | close fid0 => rw [hpc] at h; simp [SFPC.isDone] at h
    | waiting fid0 => rw [hpc] at h; simp [SFPC.isDone] at h
  · rcases sfStep_threads_shape B s i with hsh | ⟨v, hsh⟩
    · rw [hsh]; exact h
    · rw [hsh, Function.update_noteq hij]; exact h

/-- A completed call stays completed across a whole schedule. -/
theorem sfRun_done_mono (B : Bytes) {n : Nat} (L : List (Fin n))
    (s : SFState n) (j : Fin n) (h : (s.threads j).isDone = true) :
    ((sfRun B s L).threads j).isDone = true := by
  induction L generalizing s with
  | nil => exact h
  | cons a L ih => exact ih (sfStep B s a) (sfStep_done_mono B s a j h)

/-- The state after a solo leader run: cache populated with `B`,
exactly one invocation charged, every thread finished (with `B`) or
still at its cache check. -/
def sfGood (B : Bytes) {n : Nat} (s : SFState n) : Prop :=
  s.cache = some B ∧ s.synthCount = 1 ∧
  ∀ j, s.threads j = .cacheCheck ∨ ∃ c, s.threads j = .done B c

/-- From a good state, any step keeps the state good and completes the
stepped thread. -/
theorem sfGood_step (B : Bytes) {n : Nat} (s : SFState n) (i : Fin n)
    (h : sfGood B s) :
    sfGood B (sfStep B s i) ∧ ((sfStep B s i).threads i).isDone = true := by
  obtain ⟨hc, hcnt, hth⟩ := h
  rcases hth i with hpc | ⟨c, hpc⟩
  · constructor
    · refine ⟨?_, ?_, ?_⟩
      · simp [sfStep, hpc, hc]
      · simp [sfStep, hpc, hc, hcnt]
      · intro j
        by_cases hj : j = i
        · subst hj
          right
          exact ⟨true, by simp [sfStep, hpc, hc]⟩
        · rcases hth j with h2 | ⟨c2, h2⟩
          · left
            simp [sfStep, hpc, hc, Function.update_noteq hj, h2]
          · right
            exact ⟨c2, by
              simp [sfStep, hpc, hc, Function.update_noteq hj, h2]⟩
    · simp [sfStep, hpc, hc, SFPC.isDone]
  · have hstep : sfStep B s i = s := by
      simp only [sfStep, hpc]
    rw [hstep]
    exact ⟨⟨hc, hcnt, hth⟩, by simp [hpc, SFPC.isDone]⟩

/-- From a good state, a schedule keeps the state good and completes
every thread it mentions. -/
theorem sfGood_run (B : Bytes) {n : Nat} (L : List (Fin n)) (s : SFState n)
    (h : sfGood B s) :
    sfGood B (sfRun B s L) ∧
    ∀ j ∈ L, ((sfRun B s L).threads j).isDone = true := by
  induction L generalizing s with
  | nil => exact ⟨h, by simp⟩
  | cons a L ih =>
      obtain ⟨hg, hd⟩ := sfGood_step B s a h
      obtain ⟨hg', hall⟩ := ih (sfStep B s a) hg
      refine ⟨hg', ?_⟩
      intro j hj
      rcases List.mem_cons.mp hj with rfl | hj'
      · exact sfRun_done_mono B L _ j hd
      · exact hall j hj'

/-- Five solo steps of thread 0 from the initial state produce a good
state: it ran the whole leader path alone. -/
theorem sfLeader_prefix (B : Bytes) {n : Nat} (h0 : 0 < n) :
    sfGood B (sfRun B (sfInit n) (List.replicate 5 ⟨0, h0⟩)) := by
  refine ⟨?_, ?_, ?_⟩
  · simp [sfRun, sfStep, sfInit, lookupFlight, List.find?]
  · simp [sfRun, sfStep, sfInit, lookupFlight, List.find?]
  · intro j
    by_cases hj : j = (⟨0, h0⟩ : Fin n)
    · subst hj
      right
      exact ⟨false, by simp [sfRun, sfStep, sfInit, lookupFlight, List.find?]⟩
    · left
      simp [sfRun, sfStep, sfInit, lookupFlight, List.find?,
        Function.update_noteq hj]

/-- Running a concatenated schedule runs the pieces in order. -/
theorem sfRun_append (B : Bytes) {n : Nat} (s : SFState n)
    (L1 L2 : List (Fin n)) :
    sfRun B s (L1 ++ L2) = sfRun B (sfRun B s L1) L2 := by
  simp [sfRun, List.foldl_append]

/-- C4, counterexample: with two concurrent callers, the schedule in
which the second caller misses the cache before the leader's cache
write and checks the flight map only after the leader removed its
flight completes with **two** synthesizer invocations, refuting
"exactly 1 synthesizer invocation" for every interleaving. -/
theorem singleFlight_counterexample :
    sfAllDone (sfRun [7] (sfInit 2) [0, 1, 0, 0, 0, 0, 1, 1, 1, 1]) ∧
    (sfRun [7] (sfInit 2) [0, 1, 0, 0, 0, 0, 1, 1, 1, 1]).synthCount = 2 ∧
    ¬ (sfRun [7] (sfInit 2) [0, 1, 0, 0, 0, 0, 1, 1, 1, 1]).synthCount = 1 := by
  decide

/-- C4, amended: for every N ≥ 1, under **every** interleaving all
callers that complete receive byte-identical results (the
synthesizer's output), every completed run charges the synthesizer at
least once, and **some** interleaving — the leader finishing before
the other callers look — completes with exactly one invocation.  The
original "exactly 1 under every interleaving" fails (see the
counterexample): a caller that misses the cache before the leader's
write and checks the flight map after the leader's removal starts a
second, serialized invocation. -/
theorem singleFlight_amended (n : Nat) (B : Bytes) (h : 1 ≤ n) :
    (∀ (sched : List (Fin n)) (i : Fin n) (b : Bytes) (c : Bool),
       (sfRun B (sfInit n) sched).threads i = .done b c → b = B) ∧
    (∀ sched : List (Fin n), sfAllDone (sfRun B (sfInit n) sched) →
       1 ≤ (sfRun B (sfInit n) sched).synthCount) ∧
    (∃ sched : List (Fin n), sfAllDone (sfRun B (sfInit n) sched) ∧
       (sfRun B (sfInit n) sched).synthCount = 1) := by
  have h0 : 0 < n := h
  refine ⟨?_, ?_, ?_⟩
  · intro sched i b c hdone
    exact (sfDataInv_run B sched).2.2.2.2 i b c hdone
  · intro sched hall
    have hinv := sfCntInv_run B sched
    have hd := hall ⟨0, h0⟩
    apply hinv.2.2 ⟨0, h0⟩
    cases hpc : (sfRun B (sfInit n) sched).threads ⟨0, h0⟩
    case done b c => rfl
    all_goals (rw [hpc] at hd; simp [SFPC.isDone] at hd)
  · have hgood := sfLeader_prefix B h0 (n := n)
    have hrun := sfGood_run B (List.finRange n) _ hgood
    refine ⟨List.replicate 5 ⟨0, h0⟩ ++ List.finRange n, ?_, ?_⟩
    · intro j
      rw [sfRun_append]
      exact hrun.2 j (List.mem_finRange j)
    · rw [sfRun_append]
      exact hrun.1.2.1

/-- C4, witness: the amended statement at two concurrent callers and a
concrete synthesizer output. -/
theorem singleFlight_amended_witness :
    1 ≤ 2 ∧
    ((∀ (sched : List (Fin 2)) (i : Fin 2) (b : Bytes) (c : Bool),
        (sfRun [7] (sfInit 2) sched).threads i = .done b c → b = [7]) ∧
     (∀ sched : List (Fin 2), sfAllDone (sfRun [7] (sfInit 2) sched) →
        1 ≤ (sfRun [7] (sfInit 2) sched).synthCount) ∧
     (∃ sched : List (Fin 2), sfAllDone (sfRun [7] (sfInit 2) sched) ∧
        (sfRun [7] (sfInit 2) sched).synthCount = 1)) :=
  ⟨by decide, singleFlight_amended 2 [7] (by decide)⟩

end TTSDaemon
